import Mathlib

/-!
Shallow embedding of the `polo` command-line assistant (Python sources under
`src/polo/`) and proofs about its Memory store (`memory.py`), Tool Executor
(`tools.py`) and REPL command classification (`repl.py`).

Modelling conventions:
* A conversation record (Python dict with keys `id`, `timestamp`, `user`,
  `assistant`, `metadata`) becomes the structure `Conv`; the `metadata`
  mapping is modelled as an association list `List (String × String)`.
* `datetime.now().isoformat()` is an input of the environment, so functions
  that stamp records take the timestamp string as an explicit parameter.
* File I/O is abstracted by explicit success/failure flags: each point where
  the Python code can raise an `OSError`-like exception becomes a `Bool`
  parameter saying whether that step succeeds (see `save_memory`).
* Python list slicing `l[a:]` is embedded by `pySliceFrom`, including its
  semantics for negative, zero and positive start indices.
-/

namespace Polo

/-- One conversation record of the memory document (`memory.py`):
`{id, timestamp, user, assistant, metadata}`. -/
structure Conv where
  id : Nat
  timestamp : String
  user : String
  assistant : String
  metadata : List (String × String)
deriving DecidableEq

/-- The data of one `add_conversation` call: the timestamp produced by
`datetime.now().isoformat()` plus the `user_input`, `assistant_output`
and `metadata` arguments. -/
structure Entry where
  timestamp : String
  user : String
  assistant : String
  metadata : List (String × String)
deriving DecidableEq

/-- The `(timestamp, user, assistant)` triple of a stored record; this is the
content the spec's claims compare, and also the dedup key of
`import_memory`. -/
def Conv.toEntry (c : Conv) : String × String × String :=
  (c.timestamp, c.user, c.assistant)

/-- The `(timestamp, user, assistant)` triple of an `add_conversation`
input. -/
def Entry.triple (e : Entry) : String × String × String :=
  (e.timestamp, e.user, e.assistant)

/-- The retention cap of `add_conversation` (`max_conversations = 1000` in
`memory.py`). -/
def maxConversations : Nat := 1000

/-- `for i, conv in enumerate(conversations, 1): conv["id"] = i` starting the
enumeration at `k`: reassign ids sequentially. -/
def renumberFrom (k : Nat) : List Conv → List Conv
  | [] => []
  | c :: rest => ⟨k, c.timestamp, c.user, c.assistant, c.metadata⟩ :: renumberFrom (k + 1) rest

/-- `Memory.add_conversation` (memory.py lines 73-98), acting on the
`conversations` list: build a record whose id is `len + 1`, append it, and if
the list now exceeds `max_conversations = 1000` keep only the last 1000
entries (`[-1000:]`) and renumber ids `1..1000`.  The final
`return self.save_memory()` only reports persistence and does not change the
list; see `add_conversation_result` for the return value. -/
def add_conversation (convs : List Conv) (ts user assistant : String)
    (md : List (String × String)) : List Conv :=
  let conv : Conv := ⟨convs.length + 1, ts, user, assistant, md⟩
  let convs := convs ++ [conv]
  if maxConversations < convs.length then
    renumberFrom 1 (convs.drop (convs.length - maxConversations))
  else
    convs

/-- One `add_conversation` call fed from an `Entry`. -/
def addStep (convs : List Conv) (e : Entry) : List Conv :=
  add_conversation convs e.timestamp e.user e.assistant e.metadata

/-- A sequence of `add_conversation` calls starting from the store state
`init`. -/
def runAdds (init : List Conv) (ins : List Entry) : List Conv :=
  ins.foldl addStep init

/-- `Memory.add_conversation` including its return value: the in-memory
mutation happens unconditionally, then `save_memory()`'s boolean (abstracted
as `saveOk`) is returned. -/
def add_conversation_result (convs : List Conv) (ts user assistant : String)
    (md : List (String × String)) (saveOk : Bool) : List Conv × Bool :=
  (add_conversation convs ts user assistant md, saveOk)

/-- Python `l[a:]` for an arbitrary integer start index `a`:
a negative `a` starts at `max 0 (len + a)`, a non-negative `a` starts at
`a` (clamped by `drop` itself). -/
def pySliceFrom {α : Type} (l : List α) (a : Int) : List α :=
  if a < 0 then l.drop (a + l.length).toNat else l.drop a.toNat

/-- `Memory.get_recent_conversations` (memory.py lines 100-103):
`conversations[-n:] if conversations else []`. -/
def get_recent_conversations (convs : List Conv) (n : Int) : List Conv :=
  if convs.isEmpty then [] else pySliceFrom convs (-n)

/-- The `context_parts` list built by `Memory.get_context_string`: two lines
per record, `"用户: " + user` and `"助手: " + assistant`, in order. -/
def contextParts : List Conv → List String
  | [] => []
  | c :: rest => ("用户: " ++ c.user) :: ("助手: " ++ c.assistant) :: contextParts rest

/-- `Memory.get_context_string` (memory.py lines 105-116): take
`get_recent_conversations(n)`, return `""` if that is empty, else join the
two-lines-per-record parts with `"\n"`. -/
def get_context_string (convs : List Conv) (n : Int) : String :=
  let recent := get_recent_conversations convs n
  if recent.isEmpty then ""
  else String.intercalate "\n" (contextParts recent)

/-- Observable effects of one `Memory.save_memory` call (memory.py lines
57-71): the boolean it returns, whether the `.backup` copy was written and
whether the document file itself was (re)written. -/
structure SaveTrace where
  ret : Bool
  wroteBackup : Bool
  wroteFile : Bool
deriving DecidableEq

/-- `Memory.save_memory`: inside a single `try`, first `shutil.copy2` the
existing file to `.backup` (only when the file exists), then write the
document; any exception jumps to the `except` handler which logs and returns
`False`.  `fileExists` abstracts `os.path.exists(self.memory_file)`,
`copyOk` whether `shutil.copy2` succeeds, `writeOk` whether opening and
writing the document succeeds.  Because the backup copy sits inside the same
`try` as the write, a failed copy aborts the function before the write is
attempted. -/
def save_memory (fileExists copyOk writeOk : Bool) : SaveTrace :=
  if fileExists then
    if copyOk then
      if writeOk then ⟨true, true, true⟩ else ⟨false, true, false⟩
    else
      ⟨false, false, false⟩
  else
    if writeOk then ⟨true, false, true⟩ else ⟨false, false, false⟩

/-- The dedup loop of `Memory.import_memory` (memory.py lines 190-198): walk
the combined list keeping the first record for each
`(timestamp, user, assistant)` key, with `seen` the set of keys already
kept. -/
def dedupGo (seen : List (String × String × String)) : List Conv → List Conv
  | [] => []
  | c :: rest =>
    if c.toEntry ∈ seen then dedupGo seen rest
    else c :: dedupGo (c.toEntry :: seen) rest

/-- The comparison used by `combined.sort(key=lambda x: x.get('timestamp', ''))`:
order records by their timestamp strings. -/
def tsLe (a b : Conv) : Prop := a.timestamp ≤ b.timestamp

instance : DecidableRel tsLe :=
  fun a b => decidable_of_iff (a.timestamp ≤ b.timestamp) Iff.rfl

instance : IsTotal Conv tsLe :=
  ⟨fun a b => le_total a.timestamp b.timestamp⟩

instance : IsTrans Conv tsLe :=
  ⟨fun _ _ _ hab hbc => le_trans hab hbc⟩

/-- `Memory.import_memory` (memory.py lines 175-212), acting on the
conversation lists after the file has been read and validated: concatenate
existing and imported records, deduplicate on the
`(timestamp, user, assistant)` triple keeping first occurrences, sort stably
by timestamp string, and renumber ids `1..N`.  Python's `list.sort` is a
stable sort keyed on the timestamp; `List.insertionSort` with the total
preorder `tsLe` is likewise stable, so the two produce the same list. -/
def import_memory (existing imported : List Conv) : List Conv :=
  renumberFrom 1 (List.insertionSort tsLe (dedupGo [] (existing ++ imported)))

/-- `Memory.export_memory` writes `self.data` verbatim (memory.py lines
165-173), so importing the exported file into a freshly initialised store
(whose `conversations` list is empty) runs `import_memory` with no existing
records and exactly the exported conversations as input. -/
def export_then_import_fresh (doc : List Conv) : List Conv :=
  import_memory [] doc

/-- One record of the Tool Executor's in-memory usage history
(`tools.py`, `self.tool_history`): `{timestamp, tool, params}`. -/
structure ToolRec where
  timestamp : String
  tool : String
  params : List (String × String)
deriving DecidableEq

/-- The history cap of `Tools._log_tool_usage` (100 records). -/
def maxToolHistory : Nat := 100

/-- `Tools._log_tool_usage` (tools.py lines 365-375): append one usage record,
then if the history exceeds 100 entries keep only the last 100
(`self.tool_history[-100:]`). -/
def log_tool_usage (hist : List ToolRec) (r : ToolRec) : List ToolRec :=
  let h := hist ++ [r]
  if maxToolHistory < h.length then h.drop (h.length - maxToolHistory) else h

/-- A sequence of logged tool operations starting from history `init`
(`Tools.__init__` sets `self.tool_history = []`). -/
def runLogs (init : List ToolRec) (rs : List ToolRec) : List ToolRec :=
  rs.foldl log_tool_usage init

/-- A directory tree as seen by `Tools.find_files`: every entry has a name,
and a directory additionally has an ordered list of children (the order
`Path.iterdir()` yields them in). -/
inductive FSEntry where
  | file (name : String)
  | dir (name : String) (children : List FSEntry)

/-- The name of a filesystem entry. -/
def FSEntry.name : FSEntry → String
  | .file n => n
  | .dir n _ => n

/-- `str(item.relative_to(search_path))` for an item called `name` inside the
directory whose path relative to the search root is `pfx` (`""` for the root
itself). -/
def joinPath (pfx name : String) : String :=
  if pfx = "" then name else pfx ++ "/" ++ name

/-- Python `name.startswith('.')`: whether the first character is a dot.
(Defined on the character list so that it evaluates by kernel reduction.) -/
def startsWithDot (n : String) : Bool :=
  match n.data with
  | [] => false
  | c :: _ => c = '.'

/-- The nested function `search_recursive` of `Tools.find_files` (tools.py
lines 279-300), with the `results`/`count` state made explicit as `acc`
(the code increments `count` exactly when it appends to `results`, so
`count = len(results)` throughout).  Per directory item: stop when the cap is
reached, skip dot-prefixed names, record the relative path when the name
matches the pattern, and recurse into subdirectories.  `fnmatch.fnmatch`
matching against the fixed glob pattern is abstracted as the predicate
`isMatch` on entry names; the tree holds the entries `iterdir()` actually
yields (a `PermissionError`/`OSError` on a directory makes its children
empty, matching the `except: pass`); `max_results` is taken as a natural
number (a non-positive Python value behaves like 0: the cap check fires
immediately). -/
def searchRecursive (maxRes : Nat) (isMatch : String → Bool) :
    List FSEntry → String → List String → List String
  | [], _, acc => acc
  | FSEntry.file n :: rest, pfx, acc =>
    if maxRes ≤ acc.length then acc
    else if startsWithDot n then searchRecursive maxRes isMatch rest pfx acc
    else
      searchRecursive maxRes isMatch rest pfx
        (if isMatch n then acc ++ [joinPath pfx n] else acc)
  | FSEntry.dir n children :: rest, pfx, acc =>
    if maxRes ≤ acc.length then acc
    else if startsWithDot n then searchRecursive maxRes isMatch rest pfx acc
    else
      searchRecursive maxRes isMatch rest pfx
        (searchRecursive maxRes isMatch children (joinPath pfx n)
          (if isMatch n then acc ++ [joinPath pfx n] else acc))

/-- The same depth-first traversal without the result cap: the relative paths
of all non-hidden entries whose names match, in the order `search_recursive`
visits them. -/
def collectAll (isMatch : String → Bool) : List FSEntry → String → List String
  | [], _ => []
  | FSEntry.file n :: rest, pfx =>
    if startsWithDot n then collectAll isMatch rest pfx
    else (if isMatch n then [joinPath pfx n] else []) ++ collectAll isMatch rest pfx
  | FSEntry.dir n children :: rest, pfx =>
    if startsWithDot n then collectAll isMatch rest pfx
    else
      (if isMatch n then [joinPath pfx n] else []) ++
        (collectAll isMatch children (joinPath pfx n) ++ collectAll isMatch rest pfx)

/-- The report `Tools.find_files` builds (tools.py lines 302-312): `found` is
false exactly when it returns the `"❌ 未找到匹配的文件"` message, `results`
are the collected relative paths, and `capped` records whether the
`"... (仅显示前 N 个结果)"` cap marker was appended (`count >= max_results`). -/
structure FindReport where
  found : Bool
  results : List String
  capped : Bool
deriving DecidableEq

/-- `Tools.find_files` (tools.py lines 264-315) on an existing search root
whose children are `root`: run `search_recursive`, return a not-found report
when no results, else the results plus the cap marker when
`count >= max_results`. -/
def find_files (isMatch : String → Bool) (root : List FSEntry) (maxRes : Nat) :
    FindReport :=
  let results := searchRecursive maxRes isMatch root "" []
  if results.isEmpty then ⟨false, [], false⟩
  else ⟨true, results, decide (maxRes ≤ results.length)⟩

/-- The outcome of `Tools.delete_file` (tools.py lines 240-262), one
constructor per `return` statement of the non-raising paths. -/
inductive DeleteOutcome where
  | notFound
  | refusedDir
  | deletedDir
  | deletedFile
deriving DecidableEq

/-- `Tools.delete_file`: the boolean result component records whether a
removal (`shutil.rmtree` or `Path.unlink`) was actually performed.
`pathExists` abstracts `path.exists()`, `isDir` abstracts `path.is_dir()`;
the `PermissionError` handler is orthogonal to the force check and is not
modelled. -/
def delete_file (pathExists isDir force : Bool) : DeleteOutcome × Bool :=
  if !pathExists then (DeleteOutcome.notFound, false)
  else if isDir then
    if force then (DeleteOutcome.deletedDir, true)
    else (DeleteOutcome.refusedDir, false)
  else (DeleteOutcome.deletedFile, true)

/-- The builtin command registry of `PoloREPL.__init__` (repl.py lines
38-48). -/
def builtinCommands : List String :=
  ["help", "exit", "quit", "clear", "history", "memory", "stats", "tools", "about"]

/-- The alias table of `PoloREPL._parse_tool_command` (repl.py lines
103-122). -/
def toolMapping : List (String × String) :=
  [("shell", "tool_shell"), ("sh", "tool_shell"),
   ("read", "tool_read"), ("cat", "tool_read"),
   ("write", "tool_write"), ("echo", "tool_write"),
   ("ls", "tool_ls"), ("list", "tool_ls"),
   ("find", "tool_find"), ("search", "tool_find"),
   ("copy", "tool_copy"), ("cp", "tool_copy"),
   ("move", "tool_move"), ("mv", "tool_move"),
   ("delete", "tool_delete"), ("rm", "tool_delete"),
   ("info", "tool_info"), ("sysinfo", "tool_info")]

/-- Python `s.strip()` on the character list: drop whitespace from both
ends. -/
def pyStrip (s : List Char) : List Char :=
  ((s.dropWhile Char.isWhitespace).reverse.dropWhile Char.isWhitespace).reverse

/-- Python `s.split(" ", 1)` on the character list: the text before the first
space character, and everything after it (`none` when there is no space). -/
def pySplit1 : List Char → List Char × Option (List Char)
  | [] => ([], none)
  | c :: rest =>
    if c = ' ' then ([], some rest)
    else
      let p := pySplit1 rest
      (c :: p.1, p.2)

/-- Python `s.lower()` (the inputs of interest are ASCII). -/
def pyLower (s : List Char) : List Char :=
  s.map Char.toLower

/-- `PoloREPL._parse_tool_command` (repl.py lines 97-124): split off the tool
name at the first space, lower-case it, and translate it through the alias
table, defaulting to `"unknown_tool"`; the remainder of the line is the
argument string. -/
def parse_tool_command (command : List Char) : String × Option String :=
  let parts := pySplit1 command
  (((toolMapping.lookup (String.mk (pyLower parts.1))).getD "unknown_tool"),
    parts.2.map String.mk)

/-- `PoloREPL._parse_command` (repl.py lines 72-95): strip the input; empty
input is `"empty"`; a leading `/` selects a builtin by its lower-cased name
(or `"unknown_builtin"` carrying the attempted name); a leading `!` is parsed
as a tool command; anything else is `("chat", input)` with the stripped
input. -/
def parse_command (userInput : String) : String × Option String :=
  let s := pyStrip userInput.data
  if s = [] then ("empty", none)
  else if s.head? = some '/' then
    let parts := pySplit1 (s.drop 1)
    let command := String.mk (pyLower parts.1)
    if builtinCommands.contains command then (command, parts.2.map String.mk)
    else ("unknown_builtin", some command)
  else if s.head? = some '!' then parse_tool_command (s.drop 1)
  else ("chat", some (String.mk s))

theorem renumberFrom_map_toEntry (k : Nat) (l : List Conv) :
    (renumberFrom k l).map Conv.toEntry = l.map Conv.toEntry := by
  induction l generalizing k with
  | nil => rfl
  | cons c rest ih => simp [renumberFrom, Conv.toEntry, ih]

theorem renumberFrom_map_id (k : Nat) (l : List Conv) :
    (renumberFrom k l).map Conv.id = List.range' k l.length := by
  induction l generalizing k with
  | nil => rfl
  | cons c rest ih => simp [renumberFrom, ih, List.range'_succ]

theorem add_conversation_map_toEntry (convs : List Conv) (ts u a : String)
    (md : List (String × String)) :
    (add_conversation convs ts u a md).map Conv.toEntry =
      (convs.map Conv.toEntry ++ [(ts, u, a)]).drop
        (convs.length + 1 - maxConversations) := by
  simp only [add_conversation]
  split
  case isTrue h =>
    rw [renumberFrom_map_toEntry, List.map_drop]
    simp [Conv.toEntry]
  case isFalse h =>
    simp only [List.length_append, List.length_singleton] at h
    have h0 : convs.length + 1 - maxConversations = 0 := by omega
    simp [h0, Conv.toEntry]

theorem add_conversation_length (convs : List Conv) (ts u a : String)
    (md : List (String × String)) :
    (add_conversation convs ts u a md).length =
      min (convs.length + 1) maxConversations := by
  have h := congrArg List.length (add_conversation_map_toEntry convs ts u a md)
  simp only [List.length_map, List.length_drop, List.length_append,
    List.length_singleton] at h
  omega

theorem add_conversation_map_id_of_full (convs : List Conv) (ts u a : String)
    (md : List (String × String)) (h : maxConversations ≤ convs.length) :
    (add_conversation convs ts u a md).map Conv.id =
      List.range' 1 maxConversations := by
  simp only [add_conversation]
  have hcond : maxConversations <
      (convs ++ [(⟨convs.length + 1, ts, u, a, md⟩ : Conv)]).length := by
    simp only [List.length_append, List.length_singleton]
    omega
  rw [if_pos hcond]
  rw [renumberFrom_map_id, List.length_drop]
  simp only [List.length_append, List.length_singleton]
  rw [show convs.length + 1 - (convs.length + 1 - maxConversations) =
    maxConversations from by omega]

theorem runAdds_nil (init : List Conv) : runAdds init [] = init := rfl

theorem runAdds_cons (init : List Conv) (r : Entry) (rs : List Entry) :
    runAdds init (r :: rs) = runAdds (addStep init r) rs := rfl

theorem runAdds_concat (init : List Conv) (rs : List Entry) (e : Entry) :
    runAdds init (rs ++ [e]) = addStep (runAdds init rs) e := by
  simp [runAdds, List.foldl_append]

theorem runAdds_map_toEntry (rs : List Entry) :
    ∀ (r : Entry) (init : List Conv),
      (runAdds init (r :: rs)).map Conv.toEntry =
        (init.map Conv.toEntry ++ (r :: rs).map Entry.triple).drop
          (init.length + (rs.length + 1) - maxConversations) := by
  induction rs with
  | nil =>
    intro r init
    rw [runAdds_cons, runAdds_nil]
    simpa [addStep, Entry.triple] using
      add_conversation_map_toEntry init r.timestamp r.user r.assistant r.metadata
  | cons r' rs' ih =>
    intro r init
    rw [runAdds_cons, ih r' (addStep init r)]
    have hmap : (addStep init r).map Conv.toEntry =
        (init.map Conv.toEntry ++ [r.triple]).drop
          (init.length + 1 - maxConversations) := by
      simpa [addStep, Entry.triple] using
        add_conversation_map_toEntry init r.timestamp r.user r.assistant r.metadata
    have hlen : (addStep init r).length = min (init.length + 1) maxConversations := by
      simpa [addStep] using
        add_conversation_length init r.timestamp r.user r.assistant r.metadata
    rw [hmap, hlen]
    have hd : init.length + 1 - maxConversations ≤
        (init.map Conv.toEntry ++ [r.triple]).length := by
      simp only [List.length_append, List.length_map, List.length_singleton]
      omega
    rw [← List.drop_append_of_le_length hd, List.drop_drop, List.append_assoc,
      List.singleton_append]
    have harith : init.length + 1 - maxConversations +
          (min (init.length + 1) maxConversations + (rs'.length + 1) - maxConversations) =
        init.length + (rs'.length + 1 + 1) - maxConversations := by
      omega
    rw [Nat.add_comm (init.length + 1 - maxConversations)
      (min (init.length + 1) maxConversations + (rs'.length + 1) - maxConversations)] at harith ⊢
    rw [harith]
    simp [List.map_cons]

theorem runAdds_length_of_ne_nil (init : List Conv) (ins : List Entry)
    (hne : ins ≠ []) :
    (runAdds init ins).length = min (init.length + ins.length) maxConversations := by
  obtain ⟨r, rs, rfl⟩ := List.exists_cons_of_ne_nil hne
  have h := congrArg List.length (runAdds_map_toEntry rs r init)
  simp only [List.length_map, List.length_drop, List.length_append,
    List.length_cons] at h
  rw [h]
  simp only [List.length_cons]
  omega

/-- The retention property of a sequence of `add_conversation` calls: the
store holds exactly 1000 records, their ids are `1..1000` in insertion order,
and their `(timestamp, user, assistant)` content is the suffix of the full
insertion history with the oldest entries dropped. -/
def RetentionSpec (init : List Conv) (ins : List Entry) : Prop :=
  (runAdds init ins).length = maxConversations ∧
  (runAdds init ins).map Conv.id = List.range' 1 maxConversations ∧
  (runAdds init ins).map Conv.toEntry =
    (init.map Conv.toEntry ++ ins.map Entry.triple).drop
      (init.length + ins.length - maxConversations)

/-- C1: for every sequence of `add_conversation` calls on a Memory store,
once the number of stored conversations would exceed the 1000-record
retention cap, after each call the stored record count stays at 1000, the
oldest entries having been dropped (the stored content is the most recent
1000 of the full insertion history, in order), and the ids of the stored
records are the contiguous sequence `1..1000` ordered by insertion. -/
theorem add_conversation_retention (init : List Conv) (ins : List Entry)
    (hne : ins ≠ []) (hover : maxConversations < init.length + ins.length) :
    RetentionSpec init ins := by
  have hcontent : (runAdds init ins).map Conv.toEntry =
      (init.map Conv.toEntry ++ ins.map Entry.triple).drop
        (init.length + ins.length - maxConversations) := by
    obtain ⟨r, rs, rfl⟩ := List.exists_cons_of_ne_nil hne
    simpa [List.length_cons] using runAdds_map_toEntry rs r init
  have hlen : (runAdds init ins).length = maxConversations := by
    rw [runAdds_length_of_ne_nil init ins hne]
    omega
  refine ⟨hlen, ?_, hcontent⟩
  rcases List.eq_nil_or_concat ins with h | ⟨L, e, hLe⟩
  · exact absurd h hne
  · subst hLe
    rw [List.concat_eq_append, runAdds_concat]
    have hfull : maxConversations ≤ (runAdds init L).length := by
      rcases List.eq_nil_or_concat L with h0 | ⟨L', e', hL'⟩
      · subst h0
        rw [runAdds_nil]
        simp only [List.concat_eq_append, List.length_append,
          List.length_singleton, List.length_nil] at hover
        omega
      · have hne' : L ≠ [] := by
          subst hL'
          simp
        rw [runAdds_length_of_ne_nil init L hne']
        simp only [List.concat_eq_append, List.length_append,
          List.length_singleton] at hover
        omega
    simpa [addStep] using
      add_conversation_map_id_of_full (runAdds init L) e.timestamp e.user
        e.assistant e.metadata hfull

/-- Witness for C1 at a concrete input: a store already holding 1000 records
plus one further `add_conversation` call. -/
theorem add_conversation_retention_witness :
    ([⟨"t1", "u1", "a1", []⟩] : List Entry) ≠ [] ∧
    maxConversations <
      (List.replicate 1000 (⟨1, "t0", "u0", "a0", []⟩ : Conv)).length +
        ([⟨"t1", "u1", "a1", []⟩] : List Entry).length ∧
    RetentionSpec (List.replicate 1000 ⟨1, "t0", "u0", "a0", []⟩)
      [⟨"t1", "u1", "a1", []⟩] :=
  ⟨List.cons_ne_nil _ _,
    by rw [List.length_replicate]; norm_num [maxConversations],
    add_conversation_retention _ _ (List.cons_ne_nil _ _)
      (by rw [List.length_replicate]; norm_num [maxConversations])⟩

theorem get_recent_pos (convs : List Conv) (n : Int) (hn : 0 < n) :
    get_recent_conversations convs n = convs.drop (convs.length - n.toNat) := by
  unfold get_recent_conversations pySliceFrom
  by_cases hc : convs.isEmpty = true
  · rw [if_pos hc, List.isEmpty_iff.mp hc, List.drop_nil]
  · rw [if_neg hc, if_pos (show (-n : Int) < 0 by omega),
      show ((-n : Int) + (convs.length : Int)).toNat = convs.length - n.toNat from by
        omega]

theorem get_recent_zero (convs : List Conv) :
    get_recent_conversations convs 0 = convs := by
  unfold get_recent_conversations pySliceFrom
  by_cases hc : convs.isEmpty = true
  · rw [if_pos hc, List.isEmpty_iff.mp hc]
  · rw [if_neg hc]
    norm_num

theorem get_recent_neg (convs : List Conv) (n : Int) (hn : n < 0) :
    get_recent_conversations convs n = convs.drop (-n).toNat := by
  unfold get_recent_conversations pySliceFrom
  by_cases hc : convs.isEmpty = true
  · rw [if_pos hc, List.isEmpty_iff.mp hc, List.drop_nil]
  · rw [if_neg hc, if_neg (show ¬((-n : Int) < 0) by omega)]

/-- C2 counterexample: on a store holding one record, `n = 0` returns that
record (Python `conversations[-0:]` is the whole list), not the empty list
the claim requires for `n ≤ 0`. -/
theorem get_recent_conversations_zero_counterexample :
    get_recent_conversations [⟨1, "t", "u", "a", []⟩] 0 =
      [⟨1, "t", "u", "a", []⟩] ∧
    get_recent_conversations [⟨1, "t", "u", "a", []⟩] 0 ≠ [] := by decide

/-- The actual contract of `get_recent_conversations`: for `n > 0` the last
`min n k` records in chronological order, for `n = 0` all records, for
`n < 0` everything but the first `-n` records. -/
def RecentSpec (convs : List Conv) (n : Int) : Prop :=
  (0 < n → get_recent_conversations convs n =
    convs.drop (convs.length - n.toNat)) ∧
  (0 < n → (get_recent_conversations convs n).length =
    min n.toNat convs.length) ∧
  (n = 0 → get_recent_conversations convs n = convs) ∧
  (n < 0 → get_recent_conversations convs n = convs.drop (-n).toNat)

/-- C2 (amended): for `n > 0`, `get_recent_conversations(n)` returns the last
`min(n, k)` stored records in chronological order (all records when fewer
than `n` are stored); but for `n = 0` it returns all stored records, and for
`n < 0` it returns all but the first `-n` records — not the empty list. -/
theorem get_recent_conversations_spec (convs : List Conv) (n : Int) :
    RecentSpec convs n := by
  refine ⟨fun hn => get_recent_pos convs n hn, ?_, ?_, fun hn => get_recent_neg convs n hn⟩
  · intro hn
    rw [get_recent_pos convs n hn, List.length_drop]
    omega
  · intro hn
    subst hn
    exact get_recent_zero convs

/-- Witness for C2's amended theorem at `n = 2` on a two-record store. -/
theorem get_recent_conversations_spec_witness :
    (0 : Int) < 2 ∧
    get_recent_conversations [⟨1, "t1", "u1", "a1", []⟩, ⟨2, "t2", "u2", "a2", []⟩] 2 =
      ([⟨1, "t1", "u1", "a1", []⟩, ⟨2, "t2", "u2", "a2", []⟩] : List Conv).drop
        (([⟨1, "t1", "u1", "a1", []⟩, ⟨2, "t2", "u2", "a2", []⟩] : List Conv).length -
          (2 : Int).toNat) :=
  ⟨by norm_num, (get_recent_conversations_spec _ 2).1 (by norm_num)⟩

/-- C3 counterexample: when the target file exists (`fileExists = true`), the
backup copy fails (`copyOk = false`) and the write itself would succeed
(`writeOk = true`), `save_memory` neither writes the document nor returns
true — the backup failure aborts the save, contradicting "best-effort, does
not block the save" and "returns false only on an I/O error of the write
itself". -/
theorem save_memory_backup_failure_blocks :
    (save_memory true false true).wroteFile = false ∧
    (save_memory true false true).ret = false := by decide

/-- C3 (amended): `save()` copies an existing target file to its `.backup`
sibling before writing, but the copy is not best-effort: a backup failure
aborts the save (the document is not written) and makes `save()` return
false.  `save()` returns true — and writes the file — exactly when the backup
step (required only when the file exists) and the write both succeed, and it
writes the backup exactly when the file exists and the copy succeeds. -/
theorem save_memory_spec (fileExists copyOk writeOk : Bool) :
    (save_memory fileExists copyOk writeOk).ret =
      ((!fileExists || copyOk) && writeOk) ∧
    (save_memory fileExists copyOk writeOk).wroteFile =
      ((!fileExists || copyOk) && writeOk) ∧
    (save_memory fileExists copyOk writeOk).wroteBackup =
      (fileExists && copyOk) := by
  cases fileExists <;> cases copyOk <;> cases writeOk <;> decide

theorem contextParts_length (l : List Conv) :
    (contextParts l).length = 2 * l.length := by
  induction l with
  | nil => rfl
  | cons c rest ih =>
    simp only [contextParts, List.length_cons, ih]
    omega

/-- C4 counterexample: on a store holding one record, `get_context_string 0`
renders that record (two lines), not the empty string that
`min(k, n) = min(1, 0) = 0` rendered records would require. -/
theorem get_context_string_zero_counterexample :
    get_context_string [⟨1, "t", "u", "a", []⟩] 0 = "用户: u\n助手: a" ∧
    get_context_string [⟨1, "t", "u", "a", []⟩] 0 ≠ "" := by decide

/-- The rendering contract of `get_context_string` for positive `n`: the last
`min(k, n)` records, two lines per record (`"用户: …"`, `"助手: …"`), joined
by newlines; `2 · min(k, n)` lines in total. -/
def ContextPos (convs : List Conv) (n : Int) : Prop :=
  get_context_string convs n =
    (if convs.isEmpty then ""
     else String.intercalate "\n"
       (contextParts (convs.drop (convs.length - n.toNat)))) ∧
  (contextParts (convs.drop (convs.length - n.toNat))).length =
    2 * min n.toNat convs.length

/-- The actual contract of `get_context_string`: for `n > 0` as the claim
says (with the lines prefixed `"用户: "`/`"助手: "`); empty string on an
empty store; but `n = 0` renders all `k` stored records rather than none. -/
def ContextSpec (convs : List Conv) (n : Int) : Prop :=
  (0 < n → ContextPos convs n) ∧
  (convs = [] → get_context_string convs n = "") ∧
  (n = 0 → get_context_string convs n =
    (if convs.isEmpty then ""
     else String.intercalate "\n" (contextParts convs)))

/-- C4 (amended): for every store with `k` records and every `n > 0`,
`get_context_string n` renders the last `min(k, n)` records as alternating
user/assistant lines joined by newlines (`2 · min(k, n)` lines), and returns
the empty string when `k = 0`; but for `n = 0` it renders all `k` records
(the claim's `min(k, n)` description fails there), following
`get_recent_conversations`' slice semantics. -/
theorem get_context_string_spec (convs : List Conv) (n : Int) :
    ContextSpec convs n := by
  refine ⟨?_, ?_, ?_⟩
  · intro hn
    constructor
    · unfold get_context_string
      rw [get_recent_pos convs n hn]
      by_cases hc : convs.isEmpty = true
      · rw [List.isEmpty_iff.mp hc]
        simp
      · rw [if_neg hc]
        have hne : convs ≠ [] := fun h => hc (by rw [h]; rfl)
        have hlen : (convs.drop (convs.length - n.toNat)).length =
            min n.toNat convs.length := by
          rw [List.length_drop]
          omega
        have hlenpos : 0 < (convs.drop (convs.length - n.toNat)).length := by
          rw [hlen]
          have : 0 < convs.length := List.length_pos.mpr hne
          omega
        have hre : (convs.drop (convs.length - n.toNat)).isEmpty = false := by
          cases hd : convs.drop (convs.length - n.toNat) with
          | nil => rw [hd] at hlenpos; simp at hlenpos
          | cons x xs => rfl
        simp [hre]
    · rw [contextParts_length, List.length_drop]
      omega
  · intro h
    subst h
    rfl
  · intro hn
    subst hn
    unfold get_context_string
    rw [get_recent_zero]

/-- Witness for C4's amended theorem at `n = 1` on a one-record store. -/
theorem get_context_string_spec_witness :
    (0 : Int) < 1 ∧ ContextPos [⟨1, "t", "u", "a", []⟩] 1 :=
  ⟨by norm_num, (get_context_string_spec _ 1).1 (by norm_num)⟩

theorem renumberFrom_length (k : Nat) (l : List Conv) :
    (renumberFrom k l).length = l.length := by
  induction l generalizing k with
  | nil => rfl
  | cons c rest ih => simp [renumberFrom, ih]

theorem renumberFrom_map_timestamp (k : Nat) (l : List Conv) :
    (renumberFrom k l).map Conv.timestamp = l.map Conv.timestamp := by
  induction l generalizing k with
  | nil => rfl
  | cons c rest ih => simp [renumberFrom, ih]

theorem dedupGo_key_mem (l : List Conv) :
    ∀ (seen : List (String × String × String)) (k : String × String × String),
      k ∈ (dedupGo seen l).map Conv.toEntry ↔
        (k ∈ l.map Conv.toEntry ∧ k ∉ seen) := by
  induction l with
  | nil =>
    intro seen k
    simp [dedupGo]
  | cons c rest ih =>
    intro seen k
    by_cases hc : c.toEntry ∈ seen
    · rw [dedupGo, if_pos hc, ih seen k]
      simp only [List.map_cons, List.mem_cons]
      constructor
      · rintro ⟨h1, h2⟩
        exact ⟨Or.inr h1, h2⟩
      · rintro ⟨h1, h2⟩
        rcases h1 with he | h1
        · exact absurd (he ▸ hc) h2
        · exact ⟨h1, h2⟩
    · rw [dedupGo, if_neg hc]
      simp only [List.map_cons, List.mem_cons, ih (c.toEntry :: seen) k]
      constructor
      · rintro (he | ⟨h1, h2⟩)
        · exact ⟨Or.inl he, he ▸ hc⟩
        · exact ⟨Or.inr h1, fun hs => h2 (Or.inr hs)⟩
      · rintro ⟨he | h1, h2⟩
        · exact Or.inl he
        · by_cases hek : k = c.toEntry
          · exact Or.inl hek
          · refine Or.inr ⟨h1, fun hs => ?_⟩
            rcases hs with h | h
            · exact hek h
            · exact h2 h

theorem dedupGo_nodup (l : List Conv) :
    ∀ (seen : List (String × String × String)),
      ((dedupGo seen l).map Conv.toEntry).Nodup := by
  induction l with
  | nil =>
    intro seen
    simp [dedupGo]
  | cons c rest ih =>
    intro seen
    by_cases hc : c.toEntry ∈ seen
    · rw [dedupGo, if_pos hc]
      exact ih seen
    · rw [dedupGo, if_neg hc]
      simp only [List.map_cons]
      refine List.nodup_cons.mpr ⟨fun hmem => ?_, ih _⟩
      exact ((dedupGo_key_mem rest _ _).mp hmem).2 (List.mem_cons_self _ _)

/-- The round-trip property of export followed by import into a fresh store:
the resulting conversations carry exactly the `(timestamp, user, assistant)`
triples of the exported document, without duplicates, sorted by timestamp
string order, with ids renumbered contiguously `1..N`. -/
def RoundTripSpec (doc : List Conv) : Prop :=
  (∀ k, k ∈ (export_then_import_fresh doc).map Conv.toEntry ↔
    k ∈ doc.map Conv.toEntry) ∧
  ((export_then_import_fresh doc).map Conv.toEntry).Nodup ∧
  (export_then_import_fresh doc).Pairwise tsLe ∧
  (export_then_import_fresh doc).map Conv.id =
    List.range' 1 (export_then_import_fresh doc).length

/-- C5: exporting a Memory store's document with `export_memory` and
importing the file into a freshly initialised empty store yields a store
whose conversation set contains the same `(timestamp, user, assistant)`
triples (deduplicated on that triple), sorted by timestamp string ordering,
with ids renumbered contiguously `1..N`. -/
theorem export_import_round_trip (doc : List Conv) : RoundTripSpec doc := by
  unfold RoundTripSpec export_then_import_fresh import_memory
  rw [List.nil_append]
  have hperm : (List.insertionSort tsLe (dedupGo [] doc)).Perm (dedupGo [] doc) :=
    List.perm_insertionSort tsLe _
  refine ⟨?_, ?_, ?_, ?_⟩
  · intro k
    rw [renumberFrom_map_toEntry, (hperm.map Conv.toEntry).mem_iff,
      dedupGo_key_mem doc [] k]
    simp
  · rw [renumberFrom_map_toEntry]
    exact ((hperm.map Conv.toEntry).nodup_iff).mpr (dedupGo_nodup doc [])
  · have hs : (List.insertionSort tsLe (dedupGo [] doc)).Pairwise tsLe :=
      List.sorted_insertionSort tsLe _
    have h2 : ((renumberFrom 1 (List.insertionSort tsLe (dedupGo [] doc))).map
        Conv.timestamp).Pairwise (fun a b : String => a ≤ b) := by
      rw [renumberFrom_map_timestamp]
      exact List.pairwise_map.mpr hs
    exact (@List.pairwise_map Conv String Conv.timestamp (fun a b => a ≤ b)
      (renumberFrom 1 (List.insertionSort tsLe (dedupGo [] doc)))).mp h2
  · rw [renumberFrom_map_id, renumberFrom_length]

theorem take_append_take {α : Type} (l m : List α) (n : Nat) :
    (l.take n ++ m).take n = (l ++ m).take n := by
  rw [List.take_append_eq_append_take, List.take_append_eq_append_take,
    List.take_take, min_self, List.length_take]
  have h : n - min n l.length = n - l.length := by omega
  rw [h]

theorem searchRecursive_eq (maxRes : Nat) (isMatch : String → Bool) :
    ∀ (entries : List FSEntry) (pfx : String) (acc : List String),
      acc.length ≤ maxRes →
      searchRecursive maxRes isMatch entries pfx acc =
        (acc ++ collectAll isMatch entries pfx).take maxRes := by
  intro entries pfx acc
  induction entries, pfx, acc using searchRecursive.induct maxRes isMatch with
  | case1 pfx acc =>
    intro h
    simp [searchRecursive, collectAll, List.take_of_length_le h]
  | case2 n rest pfx acc hcap =>
    intro h
    have hlen : acc.length = maxRes := le_antisymm h hcap
    simp only [searchRecursive]
    rw [if_pos hcap]
    exact (List.take_left' hlen).symm
  | case3 n rest pfx acc hcap hdot ih =>
    intro h
    simp only [searchRecursive, collectAll]
    rw [if_neg hcap, if_pos hdot, if_pos hdot]
    exact ih h
  | case4 n rest pfx acc hcap hdot ih =>
    intro h
    simp only [dite_eq_ite] at ih
    have hlt : acc.length < maxRes := not_le.mp hcap
    have hacc1 : (if isMatch n then acc ++ [joinPath pfx n] else acc).length ≤ maxRes := by
      by_cases hm : isMatch n = true <;> simp [hm, List.length_append] <;> omega
    simp only [searchRecursive, collectAll]
    rw [if_neg hcap, if_neg hdot, if_neg hdot, ih hacc1]
    by_cases hm : isMatch n = true <;> simp [hm, List.append_assoc]
  | case5 n children rest pfx acc hcap =>
    intro h
    have hlen : acc.length = maxRes := le_antisymm h hcap
    simp only [searchRecursive]
    rw [if_pos hcap]
    exact (List.take_left' hlen).symm
  | case6 n children rest pfx acc hcap hdot ih =>
    intro h
    simp only [searchRecursive, collectAll]
    rw [if_neg hcap, if_pos hdot, if_pos hdot]
    exact ih h
  | case7 n children rest pfx acc hcap hdot ih1 ih2 =>
    intro h
    simp only [dite_eq_ite] at ih1 ih2
    have hlt : acc.length < maxRes := not_le.mp hcap
    have hacc1 : (if isMatch n then acc ++ [joinPath pfx n] else acc).length ≤ maxRes := by
      by_cases hm : isMatch n = true <;> simp [hm, List.length_append] <;> omega
    have hchild := ih1 hacc1
    have hacc2 : (searchRecursive maxRes isMatch children (joinPath pfx n)
        (if isMatch n then acc ++ [joinPath pfx n] else acc)).length ≤ maxRes := by
      rw [hchild, List.length_take]
      omega
    simp only [searchRecursive, collectAll]
    rw [if_neg hcap, if_neg hdot, if_neg hdot, ih2 hacc2, hchild,
      take_append_take]
    by_cases hm : isMatch n = true <;> simp [hm, List.append_assoc]

/-- The behaviour of `find_files`: it returns the first `maxResults` matches
of the full depth-first traversal, reports not-found exactly when there are
no returned results, and reports the cap exactly when at least `maxResults`
matches exist (and something was returned). -/
def FindSpec (isMatch : String → Bool) (root : List FSEntry) (maxRes : Nat) : Prop :=
  (find_files isMatch root maxRes).results =
    (collectAll isMatch root "").take maxRes ∧
  (find_files isMatch root maxRes).results.length =
    min maxRes (collectAll isMatch root "").length ∧
  ((find_files isMatch root maxRes).found = true ↔
    (find_files isMatch root maxRes).results ≠ []) ∧
  ((find_files isMatch root maxRes).capped = true ↔
    ((find_files isMatch root maxRes).results ≠ [] ∧
      maxRes ≤ (collectAll isMatch root "").length))

/-- C6: `find_files` performs a recursive depth-first search skipping
dot-prefixed entries, collecting relative paths of entries whose names match
the pattern, returns at most `maxResults` results (exactly the first
`min(maxResults, total)` of the traversal, so a tree with 7 matches and
`maxResults = 5` yields exactly 5 results), indicates when the cap was
reached, and returns a not-found result when there are no matches. -/
theorem find_files_spec (isMatch : String → Bool) (root : List FSEntry)
    (maxRes : Nat) : FindSpec isMatch root maxRes := by
  unfold FindSpec find_files
  have hsearch := searchRecursive_eq maxRes isMatch root "" [] (by simp)
  rw [List.nil_append] at hsearch
  simp only [hsearch]
  by_cases hr : ((collectAll isMatch root "").take maxRes).isEmpty = true
  · rw [if_pos hr]
    have hnil : (collectAll isMatch root "").take maxRes = [] :=
      List.isEmpty_iff.mp hr
    refine ⟨hnil.symm, ?_, by simp, by simp [hnil]⟩
    have := congrArg List.length hnil
    simp only [List.length_take, List.length_nil] at this
    simp only [List.length_nil]
    omega
  · rw [if_neg hr]
    have hne : (collectAll isMatch root "").take maxRes ≠ [] :=
      fun hnil => hr (by rw [hnil]; rfl)
    refine ⟨rfl, by simp [List.length_take], by simp [hne], ?_⟩
    rw [decide_eq_true_iff]
    constructor
    · intro hcap
      refine ⟨hne, ?_⟩
      rw [List.length_take] at hcap
      omega
    · rintro ⟨-, htot⟩
      rw [List.length_take]
      omega

/-- C7: for an existing directory path, `delete_file` without `force` returns
the refusal outcome and performs no removal (the directory and its contents
are left unchanged), with `force = true` it removes the directory, and a
removal of a directory is only ever performed when `force` is true. -/
theorem delete_file_dir_spec (pe force : Bool) :
    ((delete_file true true false).1 = DeleteOutcome.refusedDir ∧
      (delete_file true true false).2 = false) ∧
    ((delete_file true true true).1 = DeleteOutcome.deletedDir ∧
      (delete_file true true true).2 = true) ∧
    ((delete_file pe true force).2 = true → force = true) := by
  refine ⟨by decide, by decide, ?_⟩
  cases pe <;> cases force <;> decide

/-- Witness for C7 at the concrete input `force = true` on an existing
directory. -/
theorem delete_file_dir_spec_witness :
    (delete_file true true true).2 = true ∧ (true = true) :=
  ⟨by decide, (delete_file_dir_spec true true).2.2 (by decide)⟩

/-- C8: REPL input classification is a function of the stripped input line
determined by its leading character: `"/exit"` classifies as the builtin
`exit` with no argument, `"!mv a b"` as the move tool with argument string
`"a b"`, and any line not starting with `/` or `!` (such as `"hello"`)
classifies as chat carrying the text itself. -/
theorem parse_command_spec :
    parse_command "/exit" = ("exit", none) ∧
    parse_command "!mv a b" = ("tool_move", some "a b") ∧
    parse_command "hello" = ("chat", some "hello") ∧
    (∀ s : String, pyStrip s.data = s.data → s.data ≠ [] →
      s.data.head? ≠ some '/' → s.data.head? ≠ some '!' →
      parse_command s = ("chat", some s)) := by
  refine ⟨by decide, by decide, by decide, ?_⟩
  intro s h1 h2 h3 h4
  simp only [parse_command]
  rw [h1, if_neg h2, if_neg h3, if_neg h4]

/-- Witness for C8's general chat clause at the concrete input `"hi"`. -/
theorem parse_command_spec_witness :
    pyStrip ("hi" : String).data = ("hi" : String).data ∧
    parse_command "hi" = ("chat", some "hi") :=
  ⟨by decide,
    parse_command_spec.2.2.2 "hi" (by decide) (by decide) (by decide) (by decide)⟩

theorem log_tool_usage_step (hist : List ToolRec) (r : ToolRec) :
    log_tool_usage hist r =
      (hist ++ [r]).drop (hist.length + 1 - maxToolHistory) := by
  unfold log_tool_usage
  simp only [List.length_append, List.length_singleton]
  split
  · rfl
  · next hle =>
      rw [show hist.length + 1 - maxToolHistory = 0 from by omega, List.drop_zero]

theorem runLogs_eq (rs : List ToolRec) :
    ∀ (init : List ToolRec), init.length ≤ maxToolHistory →
      runLogs init rs =
        (init ++ rs).drop (init.length + rs.length - maxToolHistory) := by
  induction rs with
  | nil =>
    intro init _h
    show init = _
    rw [List.append_nil,
      show init.length + ([] : List ToolRec).length - maxToolHistory = 0 from by
        simp only [List.length_nil]
        omega,
      List.drop_zero]
  | cons r rs ih =>
    intro init h
    have hstep := log_tool_usage_step init r
    have hlen1 : (log_tool_usage init r).length =
        min (init.length + 1) maxToolHistory := by
      rw [hstep, List.length_drop, List.length_append, List.length_singleton]
      omega
    have h1 : (log_tool_usage init r).length ≤ maxToolHistory := by
      rw [hlen1]
      omega
    show runLogs (log_tool_usage init r) rs = _
    rw [ih _ h1, hlen1, hstep]
    have hd : init.length + 1 - maxToolHistory ≤ (init ++ [r]).length := by
      simp only [List.length_append, List.length_singleton]
      omega
    rw [← List.drop_append_of_le_length hd, List.drop_drop, List.append_assoc,
      List.singleton_append]
    rw [show init.length + 1 - maxToolHistory +
        (min (init.length + 1) maxToolHistory + rs.length - maxToolHistory) =
        init.length + (rs.length + 1) - maxToolHistory from by omega]
    simp only [List.length_cons]

/-- The bounded-usage-history property: starting from the empty history of a
fresh Tool Executor, after any sequence of logged operations the history is
exactly the most recent 100 records, in order. -/
def ToolHistorySpec (rs : List ToolRec) : Prop :=
  runLogs [] rs = rs.drop (rs.length - maxToolHistory) ∧
  (runLogs [] rs).length = min rs.length maxToolHistory

/-- C9: every Tool Executor operation appends exactly one usage record to the
in-memory history, and after every operation the history holds at most 100
entries, the oldest being evicted first so that exactly the most recent 100
remain. -/
theorem tool_history_bounded (rs : List ToolRec) : ToolHistorySpec rs := by
  have h := runLogs_eq rs [] (by simp [maxToolHistory])
  simp only [List.nil_append, List.length_nil, Nat.zero_add] at h
  refine ⟨h, ?_⟩
  rw [h, List.length_drop]
  omega

theorem drop_length_sub_one {α : Type} :
    ∀ (l : List α) (h : l ≠ []), l.drop (l.length - 1) = [l.getLast h] := by
  intro l
  induction l with
  | nil => intro h; exact absurd rfl h
  | cons x rest ih =>
    intro h
    cases rest with
    | nil => rfl
    | cons y t =>
      have hih := ih (List.cons_ne_nil y t)
      simp only [List.length_cons, Nat.add_sub_cancel] at hih ⊢
      rw [List.drop_succ_cons, hih, List.getLast_cons (List.cons_ne_nil y t)]

/-- Non-atomicity of `add_conversation` with respect to persistence: when the
synchronous save fails, the call returns false, yet the new record is already
in the in-memory document and `get_recent_conversations 1` observes it. -/
def NonAtomicSpec (convs : List Conv) (ts u a : String)
    (md : List (String × String)) : Prop :=
  (add_conversation_result convs ts u a md false).2 = false ∧
  (add_conversation_result convs ts u a md false).1 =
    add_conversation convs ts u a md ∧
  ∃ c : Conv,
    get_recent_conversations (add_conversation_result convs ts u a md false).1 1 =
      [c] ∧
    c.toEntry = (ts, u, a)

/-- C10: `add_conversation` is not atomic with respect to persistence
failure: if the synchronous save fails it returns false, but the new record
has already been appended to the in-memory document (with the cap and
renumbering applied), so a subsequent `get_recent_conversations` call
observes the record even though it was never persisted. -/
theorem add_conversation_not_atomic (convs : List Conv) (ts u a : String)
    (md : List (String × String)) : NonAtomicSpec convs ts u a md := by
  refine ⟨rfl, rfl, ?_⟩
  show ∃ c : Conv,
    get_recent_conversations (add_conversation convs ts u a md) 1 = [c] ∧
    c.toEntry = (ts, u, a)
  set s := add_conversation convs ts u a md with hs
  have hlen : s.length = min (convs.length + 1) maxConversations := by
    rw [hs]
    exact add_conversation_length convs ts u a md
  have hne : s ≠ [] := by
    intro h0
    rw [h0] at hlen
    simp only [List.length_nil] at hlen
    have : 0 < maxConversations := by norm_num [maxConversations]
    omega
  refine ⟨s.getLast hne, ?_, ?_⟩
  · have hrec : get_recent_conversations s 1 = s.drop (s.length - 1) := by
      rw [get_recent_pos s 1 (by norm_num)]
      rfl
    rw [hrec]
    exact drop_length_sub_one s hne
  · have hmap : s.map Conv.toEntry =
        (convs.map Conv.toEntry ++ [(ts, u, a)]).drop
          (convs.length + 1 - maxConversations) := by
      rw [hs]
      exact add_conversation_map_toEntry convs ts u a md
    have hd : convs.length + 1 - maxConversations ≤ (convs.map Conv.toEntry).length := by
      simp only [List.length_map]
      have : 0 < maxConversations := by norm_num [maxConversations]
      omega
    have hlast : (s.map Conv.toEntry).getLast? = some (ts, u, a) := by
      rw [hmap, List.drop_append_of_le_length hd, List.getLast?_concat]
    rw [List.getLast?_map, List.getLast?_eq_getLast s hne] at hlast
    simpa using hlast

end Polo
